import Mathlib

/-!
Verification of the Master_Celery repository against its specification.

The repository wires a FastAPI front end to a Celery task queue.  The pure
task bodies (`add`, `multiply`, `summarize`, `risky_task`, `cpu_burn`, the
chain/chord builders `run_chain`/`run_chord`) and the result-walking helper
`unwrap_result` (src/app/utils.py) are embedded directly from the source.
The queue-engine machinery the spec describes (broker requeue, result store,
rate limiter, timeout handling, chain/chord orchestration) is not part of
the repository's own source — only its configuration and callers are — so
those components are modelled from the spec, each marked
`Modelled from the spec:` in its doc comment.
-/

namespace MasterCelery

/-! ## Task bodies embedded from src/app/tasks.py -/

/-- `add` (src/app/tasks.py lines 6-30): sleeps 20 s, then returns `x + y`.
The sleep has no effect on the returned value. -/
def add (x y : Int) : Int := x + y

/-- `multiply` (src/app/tasks.py lines 252-280): returns `x * y`. -/
def multiply (x y : Int) : Int := x * y

/-- `summarize` (src/app/tasks.py lines 282-315):
`return sum(numbers) if numbers else 0`. -/
def summarize (numbers : List Int) : Int :=
  if numbers.isEmpty then 0 else numbers.sum

/-- `risky_task` (src/app/tasks.py lines 531-576): raises
`ValueError("Negative value error")` when `x < 0`, otherwise returns `x * 2`. -/
def risky_task (x : Int) : Except String Int :=
  if x < 0 then Except.error "Negative value error" else Except.ok (x * 2)

/-- `cpu_burn` (src/app/tasks.py lines 171-209): starts from `s = 0` and adds
every `i` in `range(n)`, returning the sum of the integers `0 .. n-1`. -/
def cpu_burn (n : Nat) : Nat :=
  (List.range n).foldl (fun s i => s + i) 0

/-- `failing_task`'s retry configuration (src/app/tasks.py line 32):
`max_retries=3`. -/
def failing_task_max_retries : Nat := 3

/-- `failing_task`'s retry configuration (src/app/tasks.py line 32):
`default_retry_delay=5` seconds. -/
def failing_task_default_retry_delay : Nat := 5

/-! ## C8 / C9 : direct functional claims about task bodies -/

/-- C8: for every integer `x`, `risky_task x` raises `ValueError` iff `x < 0`,
and returns exactly `2 * x` for every `x ≥ 0`; no other outcome is possible. -/
theorem risky_task_spec (x : Int) :
    ((∃ e, risky_task x = Except.error e) ↔ x < 0) ∧
    (0 ≤ x → risky_task x = Except.ok (2 * x)) := by
  constructor
  · constructor
    · rintro ⟨e, he⟩
      by_contra hx
      simp [risky_task, hx] at he
    · intro hx
      exact ⟨"Negative value error", by simp [risky_task, hx]⟩
  · intro hx
    have hx' : ¬ x < 0 := not_lt.mpr hx
    simp [risky_task, hx', Int.mul_comm]

/-- Witness for C8's hypothesis: at `x = 3`, `risky_task` returns `6 = 2 * 3`. -/
theorem risky_task_spec_witness :
    (0 : Int) ≤ 3 ∧ risky_task 3 = Except.ok 6 :=
  ⟨by norm_num, (risky_task_spec 3).2 (by norm_num)⟩

/-- C9 helper: `cpu_burn` computes the sum of `List.range n`. -/
theorem cpu_burn_eq_sum_range (n : Nat) : cpu_burn n = (List.range n).sum := by
  unfold cpu_burn
  rw [List.sum_eq_foldl]

/-- C9 helper: twice the sum of `List.range n` is `n * (n - 1)`, proved by
induction to keep the arithmetic division-free. -/
theorem sum_range_mul_two (n : Nat) : (List.range n).sum * 2 = n * (n - 1) := by
  induction n with
  | zero => simp
  | succ m ih =>
    rw [List.range_succ, List.sum_append]
    simp only [List.sum_cons, List.sum_nil, Nat.add_zero]
    cases m with
    | zero => simp
    | succ k =>
      have hgoal : (k + 1) * k + (k + 1) * 2 = (k + 2) * (k + 1) := by ring
      calc ((List.range (k + 1)).sum + (k + 1)) * 2
          = (List.range (k + 1)).sum * 2 + (k + 1) * 2 := by ring
        _ = (k + 1) * k + (k + 1) * 2 := by rw [ih]; simp
        _ = (k + 2) * (k + 1) := hgoal
        _ = (k + 1 + 1) * (k + 1 + 1 - 1) := by simp

/-- C9: for every `n`, `cpu_burn n` is the sum of the integers from `0` to
`n - 1`, i.e. `n * (n - 1) / 2`; in particular `cpu_burn 0 = 0`. -/
theorem cpu_burn_spec (n : Nat) : cpu_burn n = n * (n - 1) / 2 := by
  rw [cpu_burn_eq_sum_range]
  have h := sum_range_mul_two n
  omega

/-! ## Result payloads and the result-store view used by `unwrap_result` -/

/-- A JSON-serializable task result payload (the repository configures
`result_serializer='json'`): a string, an integer, a list, or null. -/
inductive PyValue where
  | str (s : String)
  | int (n : Int)
  | list (l : List PyValue)
  | null
deriving Repr

/-- A view of the result backend as seen through `AsyncResult`:
`some v` means the task id has a ready (terminal) result with payload `v`;
`none` means the id is unknown or still pending, so `ready()` is false. -/
def ResultView : Type := String → Option PyValue

/-- The loop test of `unwrap_result` (src/app/utils.py line 8):
`current.ready() and isinstance(current.result, str) and len(current.result) == 36`,
returning the 36-character string to dereference when the test passes. -/
def chainLinkOf (v : Option PyValue) : Option String :=
  match v with
  | some (PyValue.str s) => if s.length = 36 then some s else none
  | _ => none

/-- `unwrap_result` (src/app/utils.py lines 4-11): starting from `task_id`,
repeatedly replaces the current `AsyncResult` by the one whose id is the
current result, as long as the current result is ready and is a string of
length exactly 36; returns the id of the first result failing that test.
The Python loop is unbounded, so the embedding carries a fuel parameter and
returns `none` only when fuel runs out (where Python would still be looping). -/
def unwrap_result (store : ResultView) : Nat → String → Option String
  | 0, _ => none
  | fuel + 1, id =>
    match chainLinkOf (store id) with
    | some s => unwrap_result store fuel s
    | none => some id

/-! ## C10 : unwrap_result follows 36-character string payloads -/

/-- C10: `unwrap_result` (1) dereferences any ready payload that is a string
of length exactly 36 as a further task id — including a genuine final payload
that happens to be such a string; (2) any id it returns has a payload failing
that test; (3) an id whose payload is missing, non-string, or of a different
length is returned as the final answer immediately. -/
theorem unwrap_result_spec (store : ResultView) :
    (∀ fuel id s, store id = some (PyValue.str s) → s.length = 36 →
      unwrap_result store (fuel + 1) id = unwrap_result store fuel s) ∧
    (∀ fuel id r, unwrap_result store fuel id = some r →
      ∀ s, store r = some (PyValue.str s) → s.length ≠ 36) ∧
    (∀ fuel id, chainLinkOf (store id) = none →
      unwrap_result store (fuel + 1) id = some id) := by
  refine ⟨?_, ?_, ?_⟩
  · intro fuel id s hs h36
    simp [unwrap_result, chainLinkOf, hs, h36]
  · intro fuel
    induction fuel with
    | zero => intro id r hr; simp [unwrap_result] at hr
    | succ n ih =>
      intro id r hr s hs h36
      rw [unwrap_result] at hr
      cases hlink : chainLinkOf (store id) with
      | some s' =>
        rw [hlink] at hr
        exact ih s' r hr s hs h36
      | none =>
        rw [hlink] at hr
        have hid : id = r := by simpa using hr
        subst hid
        rw [hs] at hlink
        simp [chainLinkOf, h36] at hlink
  · intro fuel id hnone
    simp [unwrap_result, hnone]

/-- Witness store for C10: id `A^36` holds a genuine final payload that is
itself a 36-character string (`B^36`), which `unwrap_result` then treats as a
task id; `B^36` is unknown to the backend, so the walk stops there. -/
def c10Store : ResultView := fun id =>
  if id = "aaaaaaaaaaaaaaaaaaaaaaaaaaaaaaaaaaaa" then
    some (PyValue.str "bbbbbbbbbbbbbbbbbbbbbbbbbbbbbbbbbbbb")
  else none

/-- Witness for C10: on `c10Store`, the 36-character payload of the first id
is dereferenced as a task id (rather than returned), and the returned id's
payload fails the loop test. -/
theorem unwrap_result_spec_witness :
    c10Store "aaaaaaaaaaaaaaaaaaaaaaaaaaaaaaaaaaaa" =
      some (PyValue.str "bbbbbbbbbbbbbbbbbbbbbbbbbbbbbbbbbbbb") ∧
    ("bbbbbbbbbbbbbbbbbbbbbbbbbbbbbbbbbbbb" : String).length = 36 ∧
    unwrap_result c10Store 2 "aaaaaaaaaaaaaaaaaaaaaaaaaaaaaaaaaaaa" =
      unwrap_result c10Store 1 "bbbbbbbbbbbbbbbbbbbbbbbbbbbbbbbbbbbb" := by
  refine ⟨by simp [c10Store], by decide, ?_⟩
  exact (unwrap_result_spec c10Store).1 1
    "aaaaaaaaaaaaaaaaaaaaaaaaaaaaaaaaaaaa"
    "bbbbbbbbbbbbbbbbbbbbbbbbbbbbbbbbbbbb" (by simp [c10Store]) (by decide)

/-! ## Result store (spec §4.2, §6, §7) -/

/-- Task status of a `ResultRecord` (spec §3). -/
inductive Status where
  | pending
  | started
  | retry
  | success
  | failure
deriving DecidableEq, Repr

/-- `ResultRecord` (spec §3): status, result payload (present iff SUCCESS),
error payload (present iff FAILURE), creation time and expiry time, both in
seconds. -/
structure ResultRecord where
  status : Status
  result : Option PyValue
  error : Option PyValue
  creationTime : Nat
  expiryTime : Nat

/-- Outcome of `queryResult`: either a record or the NOT_FOUND sentinel. -/
inductive QueryOutcome where
  | notFound
  | record (r : ResultRecord)

/-- Modelled from the spec: the producer-interface `queryResult` backed by
the Result Store `get` (§4.2, §6), which is Celery-backend code absent from
src/ (src/app/main.py `get_result` lines 67-74 is only its HTTP caller).
Returns the record keyed by `id`, or the NOT_FOUND sentinel if the id is
absent or its expiry time has elapsed; expiry is enforced lazily on read. -/
def queryResult (store : List (String × ResultRecord)) (now : Nat)
    (id : String) : QueryOutcome :=
  match store.lookup id with
  | none => QueryOutcome.notFound
  | some r => if r.expiryTime ≤ now then QueryOutcome.notFound
              else QueryOutcome.record r

/-! ## C5 : queryResult on unknown/expired ids and on FAILURE records -/

/-- C5: `queryResult` is a total function — it never raises.  On an unknown
id, or on a record whose expiry time has elapsed, it returns the NOT_FOUND
sentinel; on a live record it returns that record unchanged, so on a FAILURE
record the error payload is delivered verbatim. -/
theorem queryResult_spec (store : List (String × ResultRecord)) (now : Nat)
    (id : String) :
    (store.lookup id = none → queryResult store now id = QueryOutcome.notFound) ∧
    (∀ r, store.lookup id = some r → r.expiryTime ≤ now →
      queryResult store now id = QueryOutcome.notFound) ∧
    (∀ r, store.lookup id = some r → now < r.expiryTime →
      queryResult store now id = QueryOutcome.record r ∧
      ∀ e, r.status = Status.failure → r.error = some e →
        ∃ r', queryResult store now id = QueryOutcome.record r' ∧
          r'.error = some e) := by
  refine ⟨?_, ?_, ?_⟩
  · intro h
    simp [queryResult, h]
  · intro r hr hexp
    simp [queryResult, hr, hexp]
  · intro r hr hlive
    have hne : ¬ r.expiryTime ≤ now := not_le.mpr hlive
    refine ⟨by simp [queryResult, hr, hne], ?_⟩
    intro e _ herr
    exact ⟨r, by simp [queryResult, hr, hne], herr⟩

/-- Witness for C5: an empty store returns NOT_FOUND for id `"missing"`, and
a store holding a live FAILURE record returns its error payload verbatim. -/
theorem queryResult_spec_witness :
    ([] : List (String × ResultRecord)).lookup "missing" = none ∧
    queryResult [] 0 "missing" = QueryOutcome.notFound ∧
    queryResult [("t", ⟨Status.failure, none, some (PyValue.str "boom"), 0, 100⟩)]
      10 "t" =
      QueryOutcome.record ⟨Status.failure, none, some (PyValue.str "boom"), 0, 100⟩ := by
  refine ⟨rfl, (queryResult_spec [] 0 "missing").1 rfl, ?_⟩
  exact (((queryResult_spec
    [("t", ⟨Status.failure, none, some (PyValue.str "boom"), 0, 100⟩)] 10 "t").2.2
    ⟨Status.failure, none, some (PyValue.str "boom"), 0, 100⟩
    (by simp [List.lookup]) (by norm_num)).1)

/-! ## Broker queue abstraction (spec §3, §4.1) -/

/-- `Envelope` (spec §3): task id, task type, target queue, retry count
(starts at 0), enqueue timestamp and optional not-before time in seconds
(rational, to share a clock with the continuously-refilled rate limiter). -/
structure Envelope where
  taskId : String
  taskType : String
  queue : String
  retries : Nat
  enqueueTime : ℚ
  notBefore : Option ℚ
deriving DecidableEq, Repr

/-- Broker error taxonomy (spec §4.1, §7). -/
inductive BrokerError where
  | QueueUnavailable
  | UnknownTask
  | RetriesExhausted
deriving DecidableEq, Repr

/-- Modelled from the spec: `requeueWithDelay` (§4.1), Celery broker code
absent from src/ (src/app/tasks.py lines 32-61 only configure `failing_task`
with `max_retries=3`, `default_retry_delay=5`).  Increments the retry count
and sets not-before to `now + delay`; fails with `RetriesExhausted` if the
incremented count would exceed the task's max-retries. -/
def requeueWithDelay (maxRetries : Nat) (now delay : ℚ) (e : Envelope) :
    Except BrokerError Envelope :=
  if maxRetries < e.retries + 1 then
    Except.error BrokerError.RetriesExhausted
  else
    Except.ok { e with retries := e.retries + 1, notBefore := some (now + delay) }

/-! ## C3 : retry count strictly increases and is bounded by max-retries -/

/-- C3: every successful `requeueWithDelay` strictly increases the envelope's
retry count and keeps it at most max-retries (3 for `failing_task`), and the
call that would push the count past max-retries fails with `RetriesExhausted`
instead of re-enqueuing. -/
theorem requeueWithDelay_spec (maxRetries : Nat) (now delay : ℚ) (e : Envelope) :
    (∀ e', requeueWithDelay maxRetries now delay e = Except.ok e' →
      e.retries < e'.retries ∧ e'.retries ≤ maxRetries) ∧
    (maxRetries < e.retries + 1 →
      requeueWithDelay maxRetries now delay e =
        Except.error BrokerError.RetriesExhausted) := by
  constructor
  · intro e' he'
    by_cases h : maxRetries < e.retries + 1
    · simp [requeueWithDelay, h] at he'
    · simp [requeueWithDelay, h] at he'
      subst he'
      refine ⟨by simp, ?_⟩
      simp only
      omega
  · intro h
    simp [requeueWithDelay, h]

/-- Witness for C3: with `failing_task`'s `max_retries = 3`, requeueing an
envelope already at 3 retries fails with `RetriesExhausted`, while an
envelope at 0 retries is re-enqueued with retry count 1 ≤ 3. -/
theorem requeueWithDelay_spec_witness :
    failing_task_max_retries < 3 + 1 ∧
    requeueWithDelay failing_task_max_retries 0 5
        ⟨"t1", "app.tasks.failing_task", "default", 3, 0, none⟩ =
      Except.error BrokerError.RetriesExhausted ∧
    requeueWithDelay failing_task_max_retries 0 5
        ⟨"t1", "app.tasks.failing_task", "default", 0, 0, none⟩ =
      Except.ok ⟨"t1", "app.tasks.failing_task", "default", 1, 0, some 5⟩ := by
  refine ⟨by decide, ?_, ?_⟩
  · exact (requeueWithDelay_spec failing_task_max_retries 0 5
      ⟨"t1", "app.tasks.failing_task", "default", 3, 0, none⟩).2 (by decide)
  · simp [requeueWithDelay, failing_task_max_retries]

/-! ## Time limits and failure handling (spec §4.3, §5, §7) -/

/-- Worker time-limit configuration (src/app/celery_app.py line 44):
`task_soft_time_limit=30` seconds. -/
def task_soft_time_limit : Nat := 30

/-- Worker time-limit configuration (src/app/celery_app.py line 45):
`task_time_limit=60` seconds (hard limit). -/
def task_time_limit : Nat := 60

/-- Error kinds of a failed execution (spec §7): a hard-limit timeout is
tagged distinctly from a business exception so callers can tell them apart. -/
inductive ErrorKind where
  | TaskTimeout
  | BusinessError (message : String)
deriving DecidableEq, Repr

/-- Outcome of one execution attempt. -/
inductive TaskOutcome where
  | success (v : PyValue)
  | failure (k : ErrorKind)
deriving Repr

/-- Modelled from the spec: hard-time-limit enforcement (§5, §7), Celery
worker code absent from src/ (src/app/celery_app.py only sets
`task_time_limit=60`).  If the body's running time exceeds the hard limit,
the slot is terminated and the outcome is a FAILURE tagged `TaskTimeout`;
otherwise the body's own outcome stands. -/
def executeWithHardLimit (hardLimit duration : Nat)
    (body : Except String PyValue) : TaskOutcome :=
  if hardLimit < duration then
    TaskOutcome.failure ErrorKind.TaskTimeout
  else
    match body with
    | Except.ok v => TaskOutcome.success v
    | Except.error m => TaskOutcome.failure (ErrorKind.BusinessError m)

/-- Modelled from the spec: the worker's failure handling (§4.3, §5), absent
from src/.  Any failure outcome — timeout or business exception alike — is
requeued via `requeueWithDelay` and recorded RETRY while retries remain, and
recorded terminal FAILURE otherwise.  Returns the requeued envelopes and the
recorded status. -/
def handleFailure (maxRetries : Nat) (now delay : ℚ) (e : Envelope) :
    List Envelope × Status :=
  if e.retries < maxRetries then
    match requeueWithDelay maxRetries now delay e with
    | Except.ok e' => ([e'], Status.retry)
    | Except.error _ => ([], Status.failure)
  else ([], Status.failure)

/-! ## C7 : hard-limit timeouts are FAILURE with TaskTimeout, retried once -/

/-- C7: when an execution exceeds the hard time limit its outcome is a
FAILURE tagged with the distinct `TaskTimeout` error kind (never equal to a
business-error tag); if retries remain, the envelope is requeued exactly once
for this occurrence, and otherwise the outcome is terminal — the identical
`handleFailure` policy a business exception goes through. -/
theorem hard_time_limit_spec (hardLimit duration maxRetries : Nat)
    (now delay : ℚ) (e : Envelope) (body : Except String PyValue)
    (hexceeds : hardLimit < duration) :
    executeWithHardLimit hardLimit duration body =
      TaskOutcome.failure ErrorKind.TaskTimeout ∧
    (∀ m, ErrorKind.TaskTimeout ≠ ErrorKind.BusinessError m) ∧
    (e.retries < maxRetries →
      (handleFailure maxRetries now delay e).1.length = 1 ∧
      (handleFailure maxRetries now delay e).2 = Status.retry) ∧
    (maxRetries ≤ e.retries →
      (handleFailure maxRetries now delay e).1 = [] ∧
      (handleFailure maxRetries now delay e).2 = Status.failure) := by
  refine ⟨?_, ?_, ?_, ?_⟩
  · simp [executeWithHardLimit, hexceeds]
  · intro m h
    cases h
  · intro hlt
    have hok : ¬ maxRetries < e.retries + 1 := by omega
    simp [handleFailure, hlt, requeueWithDelay, hok]
  · intro hge
    have hlt : ¬ e.retries < maxRetries := by omega
    simp [handleFailure, hlt]

/-- Witness for C7: a 61-second execution against the configured 60-second
hard limit times out; an envelope with 0 of 3 retries used is requeued
exactly once and recorded RETRY. -/
theorem hard_time_limit_spec_witness :
    task_time_limit < 61 ∧
    (⟨"t2", "app.tasks.long_running_task", "default", 0, 0, none⟩ :
      Envelope).retries < 3 ∧
    executeWithHardLimit task_time_limit 61
        (Except.ok (PyValue.str "Long-running task completed")) =
      TaskOutcome.failure ErrorKind.TaskTimeout ∧
    (handleFailure 3 0 5
      ⟨"t2", "app.tasks.long_running_task", "default", 0, 0, none⟩).1.length = 1 := by
  have h := hard_time_limit_spec task_time_limit 61 3 0 5
    ⟨"t2", "app.tasks.long_running_task", "default", 0, 0, none⟩
    (Except.ok (PyValue.str "Long-running task completed")) (by decide)
  exact ⟨by decide, by decide, h.1, (h.2.2.1 (by decide)).1⟩

/-! ## Rate limiter (spec §3, §4.5) -/

/-- `RateLimitBucket` (spec §3): capacity, refill rate in tokens per second,
current token count, last-refill timestamp in seconds. -/
structure RateLimitBucket where
  capacity : ℚ
  refillRate : ℚ
  tokens : ℚ
  lastRefill : ℚ
deriving DecidableEq, Repr

/-- Result of `tryAcquire`: allowed with the updated bucket, or denied with
the wait until the next token together with the refilled bucket. -/
inductive AcquireResult where
  | allowed (b : RateLimitBucket)
  | denied (wait : ℚ) (b : RateLimitBucket)
deriving DecidableEq, Repr

/-- Modelled from the spec: `tryAcquire` (§4.5), Celery worker code absent
from src/ (src/app/tasks.py line 634 only declares `rate_limit='10/m'` on
`limited_task`).  Adds `elapsed × refillRate` tokens capped at capacity; if
at least one token is available, consumes one and allows, else returns the
wait duration until the next token is available. -/
def tryAcquire (b : RateLimitBucket) (now : ℚ) : AcquireResult :=
  let refilled := min b.capacity (b.tokens + (now - b.lastRefill) * b.refillRate)
  if 1 ≤ refilled then
    AcquireResult.allowed
      { b with tokens := refilled - 1, lastRefill := now }
  else
    AcquireResult.denied ((1 - refilled) / b.refillRate)
      { b with tokens := refilled, lastRefill := now }

/-- The bucket configured for `limited_task` by `rate_limit='10/m'`
(src/app/tasks.py line 634): capacity 10, refill rate 10 tokens per 60
seconds, starting full at time 0. -/
def limitedTaskBucket : RateLimitBucket :=
  { capacity := 10, refillRate := 10 / 60, tokens := 10, lastRefill := 0 }

/-- The bucket state carried forward by an acquisition, allowed or denied. -/
def bucketOf : AcquireResult → RateLimitBucket
  | AcquireResult.allowed b => b
  | AcquireResult.denied _ b => b

/-- The bucket after `k` back-to-back `tryAcquire` calls at time 0, starting
from `limitedTaskBucket` (the state seen by the `k+1`-st call of a burst). -/
def afterAcquires : Nat → RateLimitBucket
  | 0 => limitedTaskBucket
  | k + 1 => bucketOf (tryAcquire (afterAcquires k) 0)

/-- The worker's decision for a dequeued envelope of a rate-limited type. -/
inductive DispatchDecision where
  | run (b : RateLimitBucket)
  | requeued (e : Envelope) (b : RateLimitBucket)
deriving DecidableEq, Repr

/-- The dispatch decision for envelope `e` given an acquisition result: run
on allowed; on denial, re-queue with not-before `now + wait` and the retry
count untouched. -/
def decideDispatch (e : Envelope) (now : ℚ) : AcquireResult → DispatchDecision
  | AcquireResult.allowed b' => DispatchDecision.run b'
  | AcquireResult.denied w b' =>
      DispatchDecision.requeued { e with notBefore := some (now + w) } b'

/-- Modelled from the spec: rate-limit enforcement at dispatch (§4.5),
absent from src/.  The engine calls `tryAcquire` immediately before starting
the task and acts on the result via `decideDispatch`. -/
def dispatchRateLimited (b : RateLimitBucket) (now : ℚ) (e : Envelope) :
    DispatchDecision :=
  decideDispatch e now (tryAcquire b now)

/-- C6 helper: during a burst at time 0, the `k`-th acquisition (k ≤ 10)
sees a bucket holding `10 - k` tokens. -/
theorem afterAcquires_eq (k : Nat) (hk : k ≤ 10) :
    afterAcquires k = ⟨10, 10 / 60, 10 - (k : ℚ), 0⟩ := by
  induction k with
  | zero =>
    rw [afterAcquires]
    unfold limitedTaskBucket
    norm_num
  | succ m ih =>
    have hm : m ≤ 10 := by omega
    have hm9 : (m : ℚ) ≤ 9 := by exact_mod_cast (by omega : m ≤ 9)
    rw [afterAcquires, ih hm]
    have hmin : min (10 : ℚ) (10 - (m : ℚ) + (0 - 0) * (10 / 60)) = 10 - (m : ℚ) := by
      have hz : (10 : ℚ) - (m : ℚ) + (0 - 0) * (10 / 60) = 10 - (m : ℚ) := by ring
      rw [hz, min_eq_right]
      have := Nat.cast_nonneg (α := ℚ) m
      linarith
    have h1 : (1 : ℚ) ≤ 10 - (m : ℚ) := by linarith
    simp only [tryAcquire, hmin, if_pos h1, bucketOf]
    congr 1
    push_cast
    ring

/-! ## C6 : the 11th burst tryAcquire is denied; waiting its delay succeeds -/

/-- C6: starting from the full bucket that `rate_limit='10/m'` configures for
`limited_task`, a burst of `tryAcquire` calls at one instant (hence within
the same minute) has its first 10 calls allowed and its 11th denied with a
strictly positive wait (6 seconds); a `tryAcquire` performed after waiting
exactly that duration succeeds.  A denial makes the dispatcher re-queue the
envelope with not-before `now + wait`, leaving the retry count unchanged —
the denial is not counted as a retry. -/
theorem limited_task_rate_limit_spec :
    (∀ k, k < 10 → ∃ b, tryAcquire (afterAcquires k) 0 = AcquireResult.allowed b) ∧
    (∃ w bden, tryAcquire (afterAcquires 10) 0 = AcquireResult.denied w bden ∧
      0 < w ∧ ∃ b', tryAcquire bden (0 + w) = AcquireResult.allowed b') ∧
    (∀ b now e w b', tryAcquire b now = AcquireResult.denied w b' →
      dispatchRateLimited b now e =
        DispatchDecision.requeued { e with notBefore := some (now + w) } b' ∧
      ({ e with notBefore := some (now + w) } : Envelope).retries = e.retries) := by
  refine ⟨?_, ?_, ?_⟩
  · intro k hk
    rw [afterAcquires_eq k (by omega)]
    have hk9 : (k : ℚ) ≤ 9 := by exact_mod_cast (by omega : k ≤ 9)
    have hmin : min (10 : ℚ) (10 - (k : ℚ) + (0 - 0) * (10 / 60)) = 10 - (k : ℚ) := by
      have hz : (10 : ℚ) - (k : ℚ) + (0 - 0) * (10 / 60) = 10 - (k : ℚ) := by ring
      rw [hz, min_eq_right]
      have := Nat.cast_nonneg (α := ℚ) k
      linarith
    have h1 : (1 : ℚ) ≤ 10 - (k : ℚ) := by linarith
    refine ⟨⟨10, 10 / 60, 10 - (k : ℚ) - 1, 0⟩, ?_⟩
    simp only [tryAcquire, hmin, if_pos h1]
  · refine ⟨6, ⟨10, 10 / 60, 0, 0⟩, ?_, by norm_num, ?_⟩
    · rw [afterAcquires_eq 10 le_rfl]
      have hmin : min (10 : ℚ) (10 - ((10 : Nat) : ℚ) + (0 - 0) * (10 / 60)) = 0 := by
        have hz : (10 : ℚ) - ((10 : Nat) : ℚ) + (0 - 0) * (10 / 60) = 0 := by
          push_cast
          ring
        rw [hz, min_eq_right]
        norm_num
      have h1 : ¬ (1 : ℚ) ≤ 0 := by norm_num
      simp only [tryAcquire, hmin, if_neg h1]
      norm_num
    · have hmin : min (10 : ℚ) (0 + ((0 + 6) - 0) * (10 / 60)) = 1 := by
        have hz : (0 : ℚ) + ((0 + 6) - 0) * (10 / 60) = 1 := by norm_num
        rw [hz, min_eq_right]
        norm_num
      have h1 : (1 : ℚ) ≤ 1 := le_rfl
      refine ⟨⟨10, 10 / 60, 1 - 1, 0 + 6⟩, ?_⟩
      simp only [tryAcquire, hmin, if_pos h1]
  · intro b now e w b' hdenied
    exact ⟨by simp only [dispatchRateLimited, hdenied, decideDispatch], rfl⟩

/-- Witness for C6: the first burst acquisition is allowed, and a concrete
denial — the 11th call, denied for 6 seconds — is re-queued with not-before
0 + 6 and an unchanged retry count of 0. -/
theorem limited_task_rate_limit_spec_witness :
    (0 < 10 ∧ ∃ b, tryAcquire (afterAcquires 0) 0 = AcquireResult.allowed b) ∧
    dispatchRateLimited (afterAcquires 10) 0
        ⟨"t3", "app.tasks.limited_task", "default", 0, 0, none⟩ =
      DispatchDecision.requeued
        ⟨"t3", "app.tasks.limited_task", "default", 0, 0, some (0 + 6)⟩
        ⟨10, 10 / 60, 0, 0⟩ := by
  have hden : tryAcquire (afterAcquires 10) 0 =
      AcquireResult.denied 6 ⟨10, 10 / 60, 0, 0⟩ := by
    rw [afterAcquires_eq 10 le_rfl]
    have hmin : min (10 : ℚ) (10 - ((10 : Nat) : ℚ) + (0 - 0) * (10 / 60)) = 0 := by
      have hz : (10 : ℚ) - ((10 : Nat) : ℚ) + (0 - 0) * (10 / 60) = 0 := by
        push_cast
        ring
      rw [hz, min_eq_right]
      norm_num
    have h1 : ¬ (1 : ℚ) ≤ 0 := by norm_num
    simp only [tryAcquire, hmin, if_neg h1]
    norm_num
  refine ⟨⟨by norm_num, limited_task_rate_limit_spec.1 0 (by norm_num)⟩, ?_⟩
  exact (limited_task_rate_limit_spec.2.2 (afterAcquires 10) 0
    ⟨"t3", "app.tasks.limited_task", "default", 0, 0, none⟩ 6
    ⟨10, 10 / 60, 0, 0⟩ hden).1

/-! ## Workflow composer: chains (spec §3, §4.4; src/app/tasks.py run_chain) -/

/-- A `TaskSignature` as enqueued in a chain: the routed task type and the
preset positional arguments (the predecessor's result is prepended as the
leading argument at delivery, spec §4.4). -/
structure Signature where
  taskType : String
  args : List Int
deriving DecidableEq, Repr

/-- The registered task bodies reachable from the chain/chord workflows of
src/app/tasks.py, dispatched by routed task type (spec §9: registry from
task-type string to handler). -/
def runTask : String → List Int → Option Int
  | "app.tasks.add", [x, y] => some (add x y)
  | "app.tasks.multiply", [x, y] => some (multiply x y)
  | _, _ => none

/-- `run_chain` (src/app/tasks.py lines 317-357): builds the chain
`chain(add.s(x, y), multiply.s(2))` — `add` with full arguments followed by
`multiply` preset with 2, awaiting the predecessor's result. -/
def run_chain (x y : Int) : List Signature :=
  [⟨"app.tasks.add", [x, y]⟩, ⟨"app.tasks.multiply", [2]⟩]

/-- Modelled from the spec: execution of the tail of a chain (§4.3-4.4),
Celery worker code absent from src/ — each signature receives its
predecessor's result as leading positional argument.  Returns every stage's
result in stage order. -/
def chainResultsFrom (prev : Int) : List Signature → Option (List Int)
  | [] => some []
  | s :: rest =>
    (runTask s.taskType (prev :: s.args)).bind fun v =>
      (chainResultsFrom v rest).map fun vs => v :: vs

/-- Modelled from the spec: full chain execution (§4.4), absent from src/ —
the first signature runs on its own arguments, the rest via
`chainResultsFrom`. -/
def chainResults : List Signature → Option (List Int)
  | [] => some []
  | s :: rest =>
    (runTask s.taskType s.args).bind fun v =>
      (chainResultsFrom v rest).map fun vs => v :: vs

/-- A SUCCESS `ResultRecord` of one chain stage in the Result Store: the
stage's value and the id of its success-callback stage, if any (spec §3,
§4.4).  Stage ids are the positions at which the stages were enqueued. -/
structure ChainRecord where
  value : Int
  next : Option Nat
deriving DecidableEq, Repr

/-- Link stage values into success-callback records: the record at position
`start` points at stage `start + 1` as long as one exists among the `n`
stages. -/
def linkRecords (start n : Nat) : List Int → List ChainRecord
  | [] => []
  | v :: vs =>
      ⟨v, if start + 1 < n then some (start + 1) else none⟩ ::
        linkRecords (start + 1) n vs

/-- Modelled from the spec: the Result Store after a completed chain run
(§4.4), absent from src/ — record `i` holds stage `i`'s value and its
success-callback linkage. -/
def chainStore (sigs : List Signature) : Option (List ChainRecord) :=
  (chainResults sigs).map (fun vs => linkRecords 0 vs.length vs)

/-- Modelled from the spec: the composer's linkage-walk helper (§4.4),
realized in the repository by `get_chain_result` (src/app/main.py lines
131-199) and `unwrap_result` (src/app/utils.py): starting from a task id,
follow success-callback links through the Result Store until a record with
no successor is reached, and return that terminal record. -/
def walkChain (store : List ChainRecord) : Nat → Nat → Option ChainRecord
  | 0, _ => none
  | fuel + 1, id =>
    match store.get? id with
    | none => none
    | some r =>
      match r.next with
      | none => some r
      | some id' => walkChain store fuel id'

/-- An entry of a submitted chain: assigned task id, the signature, and the
id of its success callback, if any. -/
def linkEntries (start n : Nat) : List Signature → List (Nat × Signature × Option Nat)
  | [] => []
  | s :: ss =>
      (start, s, if start + 1 < n then some (start + 1) else none) ::
        linkEntries (start + 1) n ss

/-- A chain as submitted by the composer: the returned root id and the
enqueued entries with their success-callback linkage. -/
structure ChainSubmission where
  rootId : Nat
  entries : List (Nat × Signature × Option Nat)

/-- Modelled from the spec: `buildChain` (§4.4), absent from src/ — submits
the first signature, attaches each subsequent signature as the success
callback of its predecessor (ids assigned sequentially from 0), and returns
the id of the first enqueued task. -/
def buildChain (sigs : List Signature) : Option ChainSubmission :=
  match sigs with
  | [] => none
  | _ => some ⟨0, linkEntries 0 sigs.length sigs⟩

/-! ## C1 : the chain add(3,4) → multiply(_, 2) ends at value 14 -/

/-- C1: for the chain built by `run_chain 3 4`, the first stage `add(3,4)`
produces 7, the second stage receives 7 as its leading argument and
`multiply(7,2)` produces 14, and walking the success-callback linkage from
the root task id 0 reaches the terminal record — one with no successor —
holding value 14. -/
theorem run_chain_3_4_spec :
    runTask "app.tasks.add" [3, 4] = some 7 ∧
    runTask "app.tasks.multiply" (7 :: [2]) = some 14 ∧
    chainResults (run_chain 3 4) = some [7, 14] ∧
    chainStore (run_chain 3 4) = some [⟨7, some 1⟩, ⟨14, none⟩] ∧
    walkChain [⟨7, some 1⟩, ⟨14, none⟩] 2 0 = some ⟨14, none⟩ := by
  decide

/-! ## C4 : buildChain returns the first id; the walk helper finds the end -/

/-- C4 helper: `chainResultsFrom` yields one result per remaining stage. -/
theorem chainResultsFrom_length (prev : Int) (sigs : List Signature)
    (vs : List Int) (h : chainResultsFrom prev sigs = some vs) :
    vs.length = sigs.length := by
  induction sigs generalizing prev vs with
  | nil =>
    simp [chainResultsFrom] at h
    subst h
    rfl
  | cons s rest ih =>
    rw [chainResultsFrom] at h
    cases hr : runTask s.taskType (prev :: s.args) with
    | none => rw [hr] at h; simp at h
    | some v =>
      rw [hr] at h
      simp only [Option.some_bind] at h
      cases hc : chainResultsFrom v rest with
      | none => rw [hc] at h; simp at h
      | some ws =>
        rw [hc] at h
        simp at h
        subst h
        simp [ih v ws hc]

/-- C4 helper: `chainResults` yields one result per stage. -/
theorem chainResults_length (sigs : List Signature) (vs : List Int)
    (h : chainResults sigs = some vs) : vs.length = sigs.length := by
  cases sigs with
  | nil =>
    simp [chainResults] at h
    subst h
    rfl
  | cons s rest =>
    rw [chainResults] at h
    cases hr : runTask s.taskType s.args with
    | none => rw [hr] at h; simp at h
    | some v =>
      rw [hr] at h
      simp only [Option.some_bind] at h
      cases hc : chainResultsFrom v rest with
      | none => rw [hc] at h; simp at h
      | some ws =>
        rw [hc] at h
        simp at h
        subst h
        simp [chainResultsFrom_length v rest ws hc]

/-- C4 helper: linking preserves the number of records. -/
theorem linkRecords_length (start n : Nat) (vs : List Int) :
    (linkRecords start n vs).length = vs.length := by
  induction vs generalizing start with
  | nil => rfl
  | cons v vs ih => simp [linkRecords, ih]

/-- C4 helper: the record at position `j` of a linked store holds value
`vs[j]` and points at `start + j + 1` while that stage exists. -/
theorem linkRecords_get? (start n j : Nat) (vs : List Int) :
    (linkRecords start n vs).get? j =
      (vs.get? j).map (fun v =>
        (⟨v, if start + j + 1 < n then some (start + j + 1) else none⟩ :
          ChainRecord)) := by
  induction vs generalizing start j with
  | nil => simp [linkRecords]
  | cons v vs ih =>
    cases j with
    | zero => simp [linkRecords]
    | succ m =>
      have heq : start + 1 + m = start + (m + 1) := by omega
      simp only [linkRecords, List.get?_cons_succ, ih (start + 1) m, heq]

/-- C4 helper: on a linked store, the walk from any stage `i` with enough
fuel ends at the last record. -/
theorem walkChain_to_terminal (vs : List Int) (fuel : Nat) :
    ∀ i, i < vs.length → vs.length - i ≤ fuel →
      walkChain (linkRecords 0 vs.length vs) fuel i =
        (linkRecords 0 vs.length vs).get? (vs.length - 1) := by
  induction fuel with
  | zero =>
    intro i hi hf
    omega
  | succ f ih =>
    intro i hi hf
    obtain ⟨v, hv⟩ : ∃ v, vs.get? i = some v := by
      cases h : vs.get? i with
      | none => rw [List.get?_eq_none] at h; omega
      | some v => exact ⟨v, rfl⟩
    have hget : (linkRecords 0 vs.length vs).get? i =
        some ⟨v, if 0 + i + 1 < vs.length then some (0 + i + 1) else none⟩ := by
      rw [linkRecords_get?, hv]
      rfl
    rw [walkChain, hget]
    by_cases hnext : 0 + i + 1 < vs.length
    · rw [if_pos hnext]
      have := ih (i + 1) (by omega) (by omega)
      simpa [Nat.zero_add] using this
    · rw [if_neg hnext]
      have hi' : vs.length - 1 = i := by omega
      rw [hi', linkRecords_get?, hv, if_neg hnext]
      rfl

/-- C4: for every chain whose run completed (its store exists and is
nonempty), `buildChain` returns the task id of the first enqueued signature
— the root id 0 heads the submitted entries and carries the first signature
— and the linkage-walk helper, given that root id, walks the
success-callback linkage to the terminal task id and returns its record,
which has no successor. -/
theorem buildChain_spec (sigs : List Signature) (st : List ChainRecord)
    (hst : chainStore sigs = some st) (hne : st ≠ []) :
    ∃ sub, buildChain sigs = some sub ∧
      sub.rootId = 0 ∧
      (∃ s nxt rest, sub.entries = (sub.rootId, s, nxt) :: rest ∧
        sigs.head? = some s) ∧
      walkChain st st.length sub.rootId = st.get? (st.length - 1) ∧
      (∃ r, walkChain st st.length sub.rootId = some r ∧ r.next = none) := by
  obtain ⟨vs, hvs, hlink⟩ : ∃ vs, chainResults sigs = some vs ∧
      st = linkRecords 0 vs.length vs := by
    unfold chainStore at hst
    cases h : chainResults sigs with
    | none => rw [h] at hst; simp at hst
    | some vs =>
      rw [h] at hst
      simp at hst
      exact ⟨vs, rfl, hst.symm⟩
  have hstlen : st.length = vs.length := by rw [hlink, linkRecords_length]
  have hvslen : vs.length = sigs.length := chainResults_length sigs vs hvs
  have hvsne : vs ≠ [] := by
    intro hnil
    apply hne
    rw [hlink, hnil]
    rfl
  have hvspos : 0 < vs.length := List.length_pos.mpr hvsne
  cases hsigs : sigs with
  | nil =>
    exfalso
    rw [hsigs] at hvslen
    simp only [List.length_nil] at hvslen
    omega
  | cons s0 srest =>
    refine ⟨⟨0, linkEntries 0 sigs.length sigs⟩, ?_, rfl, ?_, ?_, ?_⟩
    · rw [hsigs]
      rfl
    · rw [hsigs]
      exact ⟨s0, _, _, rfl, rfl⟩
    · rw [hstlen, hlink]
      exact walkChain_to_terminal vs vs.length 0 hvspos (by omega)
    · rw [hstlen, hlink]
      rw [walkChain_to_terminal vs vs.length 0 hvspos (by omega)]
      obtain ⟨v, hv⟩ : ∃ v, vs.get? (vs.length - 1) = some v := by
        cases h : vs.get? (vs.length - 1) with
        | none => rw [List.get?_eq_none] at h; omega
        | some v => exact ⟨v, rfl⟩
      rw [linkRecords_get?, hv]
      have hnot : ¬ 0 + (vs.length - 1) + 1 < vs.length := by omega
      rw [if_neg hnot]
      exact ⟨_, rfl, rfl⟩

/-- Witness for C4: on the chain built by `run_chain 3 4`, whose store is
`[⟨7, some 1⟩, ⟨14, none⟩]`, `buildChain` returns root id 0 heading the
entries, and the walk from 0 ends at the terminal record. -/
theorem buildChain_spec_witness :
    chainStore (run_chain 3 4) = some [⟨7, some 1⟩, ⟨14, none⟩] ∧
    ([⟨7, some 1⟩, ⟨14, none⟩] : List ChainRecord) ≠ [] ∧
    ∃ sub, buildChain (run_chain 3 4) = some sub ∧
      sub.rootId = 0 ∧
      (∃ s nxt rest, sub.entries = (sub.rootId, s, nxt) :: rest ∧
        (run_chain 3 4).head? = some s) ∧
      walkChain [⟨7, some 1⟩, ⟨14, none⟩] 2 sub.rootId =
        ([⟨7, some 1⟩, ⟨14, none⟩] : List ChainRecord).get? 1 ∧
      (∃ r, walkChain [⟨7, some 1⟩, ⟨14, none⟩] 2 sub.rootId = some r ∧
        r.next = none) :=
  ⟨by decide, by decide,
    buildChain_spec (run_chain 3 4) [⟨7, some 1⟩, ⟨14, none⟩]
      (by decide) (by decide)⟩

/-! ## Workflow composer: chords (spec §3, §4.4; src/app/tasks.py run_chord) -/

/-- `run_chord`'s header construction (src/app/tasks.py line 401):
`[add.s(n, 1) for n in numbers]`, in submission order. -/
def run_chord_header (numbers : List Int) : List Signature :=
  numbers.map fun n => ⟨"app.tasks.add", [n, 1]⟩

/-- Modelled from the spec: the header results of a chord in submission
order (§4.4), absent from src/ — each header signature executes on its own
arguments. -/
def headerResults : List Signature → Option (List Int)
  | [] => some []
  | s :: rest =>
    (runTask s.taskType s.args).bind fun v =>
      (headerResults rest).map fun vs => v :: vs

/-- One chord completion event (spec §4.4): header `i` reports its result,
which is written into the per-position slot `i`. -/
def applyCompletion (results : List Int) (slots : List (Option Int)) (i : Nat) :
    List (Option Int) :=
  match results.get? i with
  | some v => slots.set i (some v)
  | none => slots

/-- Modelled from the spec: the chord's per-position slot array (§4.4),
absent from src/ — completion events arrive in `order` (an arbitrary
completion order) and each fills its own slot. -/
def fillSlots (results : List Int) (order : List Nat)
    (slots : List (Option Int)) : List (Option Int) :=
  order.foldl (applyCompletion results) slots

/-- Gather the slot array once the completion tally says every header is
done; `none` signals a still-empty slot. -/
def collectSlots : List (Option Int) → Option (List Int)
  | [] => some []
  | none :: _ => none
  | some v :: rest => (collectSlots rest).map (fun vs => v :: vs)

/-- Modelled from the spec: the ordered argument list the chord body
receives (§4.4), absent from src/ — the slot array filled by the completion
events in `order`, gathered in slot (= submission) order. -/
def chordBodyInput (headers : List Signature) (order : List Nat) :
    Option (List Int) :=
  (headerResults headers).bind fun results =>
    collectSlots (fillSlots results order (List.replicate headers.length none))

/-- Modelled from the spec: the chord's final result (§4.4) — the body
`summarize` (src/app/tasks.py lines 282-315 and 403) applied to the gathered
slot array. -/
def runChord (headers : List Signature) (order : List Nat) : Option Int :=
  (chordBodyInput headers order).map summarize

/-- C2 helper: a completion event preserves the slot-array length. -/
theorem applyCompletion_length (results : List Int) (slots : List (Option Int))
    (i : Nat) : (applyCompletion results slots i).length = slots.length := by
  unfold applyCompletion
  cases results.get? i with
  | none => rfl
  | some v => simp

/-- C2 helper: filling slots preserves the slot-array length. -/
theorem fillSlots_length (results : List Int) (order : List Nat)
    (slots : List (Option Int)) :
    (fillSlots results order slots).length = slots.length := by
  induction order generalizing slots with
  | nil => rfl
  | cons i order ih =>
    rw [fillSlots, List.foldl_cons]
    rw [show List.foldl (applyCompletion results)
        (applyCompletion results slots i) order =
      fillSlots results order (applyCompletion results slots i) from rfl]
    rw [ih, applyCompletion_length]

/-- C2 helper: a slot whose header never completes in `order` is untouched. -/
theorem fillSlots_get?_not_mem (results : List Int) (order : List Nat)
    (slots : List (Option Int)) (j : Nat) (hj : j ∉ order) :
    (fillSlots results order slots).get? j = slots.get? j := by
  induction order generalizing slots with
  | nil => rfl
  | cons i order ih =>
    have hji : j ≠ i := fun h => hj (h ▸ List.mem_cons_self i order)
    have hj' : j ∉ order := fun h => hj (List.mem_cons_of_mem i h)
    rw [fillSlots, List.foldl_cons]
    rw [show List.foldl (applyCompletion results)
        (applyCompletion results slots i) order =
      fillSlots results order (applyCompletion results slots i) from rfl]
    rw [ih _ hj']
    unfold applyCompletion
    cases results.get? i with
    | none => rfl
    | some v => exact List.get?_set_ne _ _ (fun h => hji h.symm)

/-- C2 helper: after its header completes, slot `j` holds header `j`'s
result — whatever the completion order. -/
theorem fillSlots_get?_mem (results : List Int) (order : List Nat)
    (slots : List (Option Int)) (j : Nat) (hj : j ∈ order)
    (hjr : j < results.length) (hlen : slots.length = results.length) :
    (fillSlots results order slots).get? j = (results.get? j).map some := by
  induction order generalizing slots with
  | nil => simp at hj
  | cons i order ih =>
    rw [fillSlots, List.foldl_cons]
    rw [show List.foldl (applyCompletion results)
        (applyCompletion results slots i) order =
      fillSlots results order (applyCompletion results slots i) from rfl]
    by_cases hmem : j ∈ order
    · exact ih _ hmem (by rw [applyCompletion_length, hlen])
    · have hji : j = i := by
        cases List.mem_cons.mp hj with
        | inl h => exact h
        | inr h => exact absurd h hmem
      subst hji
      rw [fillSlots_get?_not_mem _ _ _ _ hmem]
      obtain ⟨v, hv⟩ : ∃ v, results.get? j = some v := by
        cases h : results.get? j with
        | none => rw [List.get?_eq_none] at h; omega
        | some v => exact ⟨v, rfl⟩
      unfold applyCompletion
      rw [hv]
      rw [List.get?_set_eq_of_lt _ (by omega)]
      simp [hv]

/-- C2 helper: when the completion events are a permutation of the header
positions, the filled slot array is the results in submission order. -/
theorem fillSlots_perm (results : List Int) (order : List Nat)
    (h : order.Perm (List.range results.length)) :
    fillSlots results order (List.replicate results.length none) =
      results.map some := by
  apply List.ext
  intro j
  by_cases hj : j < results.length
  · have hmem : j ∈ order := h.mem_iff.mpr (List.mem_range.mpr hj)
    rw [fillSlots_get?_mem results order _ j hmem hj (by simp)]
    rw [List.get?_map]
  · have h1 : (fillSlots results order
        (List.replicate results.length none)).get? j = none := by
      rw [List.get?_eq_none, fillSlots_length]
      simp
      omega
    have h2 : (results.map some).get? j = none := by
      rw [List.get?_eq_none]
      simp
      omega
    rw [h1, h2]

/-- C2 helper: gathering a fully-filled slot array yields its values. -/
theorem collectSlots_map_some (vs : List Int) :
    collectSlots (vs.map some) = some vs := by
  induction vs with
  | nil => rfl
  | cons v vs ih => simp [collectSlots, ih]

/-! ## C2 : the chord over [1,2,3] feeds summarize [2,3,4] and yields 9 -/

/-- C2: for the chord built by `run_chord [1, 2, 3]` — headers
`[add(1,1), add(2,1), add(3,1)]`, body `summarize` — whatever order the
three headers complete in, the body receives the header results in
header-submission order `[2, 3, 4]`, and the chord's final result is
`summarize [2, 3, 4] = 9`. -/
theorem run_chord_1_2_3_spec (order : List Nat)
    (h : order.Perm (List.range 3)) :
    headerResults (run_chord_header [1, 2, 3]) = some [2, 3, 4] ∧
    chordBodyInput (run_chord_header [1, 2, 3]) order = some [2, 3, 4] ∧
    runChord (run_chord_header [1, 2, 3]) order = some (summarize [2, 3, 4]) ∧
    runChord (run_chord_header [1, 2, 3]) order = some 9 := by
  have hhead : headerResults (run_chord_header [1, 2, 3]) = some [2, 3, 4] := by
    decide
  have hperm : order.Perm (List.range ([2, 3, 4] : List Int).length) := by
    simpa using h
  have hbody : chordBodyInput (run_chord_header [1, 2, 3]) order =
      some [2, 3, 4] := by
    rw [chordBodyInput, hhead, Option.some_bind]
    rw [show (run_chord_header [1, 2, 3]).length =
      ([2, 3, 4] : List Int).length from rfl]
    rw [fillSlots_perm [2, 3, 4] order hperm]
    exact collectSlots_map_some [2, 3, 4]
  refine ⟨hhead, hbody, ?_, ?_⟩
  · rw [runChord, hbody]
    rfl
  · rw [runChord, hbody]
    decide

/-- Witness for C2: the completion order `[2, 0, 1]` — headers finishing
out of submission order — still feeds the body `[2, 3, 4]` and yields 9. -/
theorem run_chord_1_2_3_spec_witness :
    ([2, 0, 1] : List Nat).Perm (List.range 3) ∧
    chordBodyInput (run_chord_header [1, 2, 3]) [2, 0, 1] = some [2, 3, 4] ∧
    runChord (run_chord_header [1, 2, 3]) [2, 0, 1] = some 9 := by
  have hp : ([2, 0, 1] : List Nat).Perm (List.range 3) := by decide
  have h := run_chord_1_2_3_spec [2, 0, 1] hp
  exact ⟨hp, h.2.1, h.2.2.2⟩

end MasterCelery
